import Mathlib

/-!
Verification development for the Lagerverwaltung app logic.

Strings of the JavaScript source are modelled as lists of UTF-16 code
units (`List Nat`); the string utilities of the `U` module become pure
functions on such lists.  Numeric image computations (done in JS number
arithmetic) are modelled over `ℚ`.
-/

namespace Lager

/-- A JS string, as its list of UTF-16 code units. -/
abbrev Str := List Nat

/-! ### U utilities (src/unnamed/part_000 lines 8-9, 34-39)

Code units used below: 9 = tab, 10 = LF, 11 = VT, 12 = FF, 13 = CR,
32 = space, 45 = hyphen-minus, 46 = full stop, 60 = less-than,
62 = greater-than, 95 = low line, 97..122 = lowercase a..z. -/

/-- `U.sanitize`: `(s ?? "").replace(/[<>]/g, "")` — drop every `<` and `>`. -/
def sanitize (s : Str) : Str :=
  s.filter (fun c => decide (c ≠ 60 ∧ c ≠ 62))

/-- Whitespace code units matched by the regex class `\s` (ASCII part). -/
def isWsCode (c : Nat) : Bool :=
  c = 32 || c = 9 || c = 10 || c = 13 || c = 11 || c = 12

/-- Code units matched by the regex class `[\s._-]`. -/
def isStripCode (c : Nat) : Bool :=
  isWsCode c || c = 46 || c = 95 || c = 45

/-- `toUpperCase` on one UTF-16 unit (ASCII range, as the app's data uses). -/
def upCode (c : Nat) : Nat :=
  if 97 ≤ c ∧ c ≤ 122 then c - 32 else c

/-- `U.normLs`: `sanitize(String(s)).replace(/[\s._-]+/g, "").toUpperCase()`. -/
def normLs (s : Str) : Str :=
  ((sanitize s).filter (fun c => !isStripCode c)).map upCode

/-- JS `String.prototype.trim`: drop leading and trailing whitespace. -/
def trim (s : Str) : Str :=
  ((s.dropWhile isWsCode).reverse.dropWhile isWsCode).reverse

/-- Modelled from the spec's words (§3): the normalized number is the raw
number uppercased with `-`, `_`, `.` and whitespace stripped — and nothing
else.  Used only to compare against the source's `normLs`. -/
def specNormalize (s : Str) : Str :=
  (s.filter (fun c => !isStripCode c)).map upCode

/-! #### Elementary facts about the character maps -/

lemma upCode_idem (c : Nat) : upCode (upCode c) = upCode c := by
  unfold upCode
  split
  · split
    · omega
    · rfl
  · rfl

lemma isStripCode_upCode (c : Nat) : isStripCode (upCode c) = isStripCode c := by
  unfold upCode isStripCode isWsCode
  rw [Bool.eq_iff_iff]
  split
  · simp only [Bool.or_eq_true, decide_eq_true_eq]
    omega
  · exact Iff.rfl

lemma upCode_ne_angle (c : Nat) (hc : c ≠ 60 ∧ c ≠ 62) :
    upCode c ≠ 60 ∧ upCode c ≠ 62 := by
  unfold upCode
  split <;> omega

/-- Members of a sanitized string carry no `<` or `>`. -/
lemma mem_sanitize {c : Nat} {s : Str} (h : c ∈ sanitize s) : c ≠ 60 ∧ c ≠ 62 := by
  unfold sanitize at h
  have := List.of_mem_filter h
  simpa using this

/-- `trim` only removes members, it never adds any. -/
lemma mem_trim {c : Nat} {s : Str} (h : c ∈ trim s) : c ∈ s := by
  unfold trim at h
  rw [List.mem_reverse] at h
  have h1 := (List.dropWhile_sublist isWsCode).mem h
  rw [List.mem_reverse] at h1
  exact (List.dropWhile_sublist isWsCode).mem h1

/-- Filtering with a predicate that already holds of every member is the identity. -/
lemma filter_eq_self_of_mem {p : Nat → Bool} {s : Str}
    (h : ∀ c ∈ s, p c = true) : s.filter p = s :=
  List.filter_eq_self.mpr h

/-- C5: The document-number normalization `normLs` is idempotent:
normalizing an already-normalized number changes nothing. -/
theorem normLs_idempotent (s : Str) : normLs (normLs s) = normLs s := by
  have hmem : ∀ c ∈ normLs s,
      (c ≠ 60 ∧ c ≠ 62) ∧ isStripCode c = false := by
    intro c hc
    unfold normLs at hc
    rcases List.mem_map.mp hc with ⟨b, hb, rfl⟩
    have hb1 := List.of_mem_filter hb
    have hb2 : b ∈ sanitize s := List.mem_of_mem_filter hb
    have hb3 := mem_sanitize hb2
    refine ⟨upCode_ne_angle b hb3, ?_⟩
    rw [isStripCode_upCode]
    simpa using hb1
  have h1 : sanitize (normLs s) = normLs s := by
    apply filter_eq_self_of_mem
    intro c hc
    have := (hmem c hc).1
    simp [this]
  have h2 : (normLs s).filter (fun c => !isStripCode c) = normLs s := by
    apply filter_eq_self_of_mem
    intro c hc
    have := (hmem c hc).2
    simp [this]
  show ((sanitize (normLs s)).filter (fun c => !isStripCode c)).map upCode = normLs s
  rw [h1, h2]
  unfold normLs
  rw [List.map_map]
  have : upCode ∘ upCode = upCode := funext upCode_idem
  rw [this]

/-! ### Inbound documents (src/unnamed/part_000 lines 798-828) -/

/-- Status string "ohne_zeichnung" (document created without drawing). -/
def ohneStatus : Str := [111, 104, 110, 101, 95, 122, 101, 105, 99, 104, 110, 117, 110, 103]

/-- Status string "mit_zeichnung" (drawing attached). -/
def mitStatus : Str := [109, 105, 116, 95, 122, 101, 105, 99, 104, 110, 117, 110, 103]

/-- An `inbound_docs` record, as built by `handleSubmit`. -/
structure Doc where
  id : Nat
  ls_nr : Str
  ls_nr_normalized : Str
  supplier : Str
  date_doc : Str
  status : Str
  created_at : Str
  created_by : Str
deriving DecidableEq

/-- The document record `handleSubmit` persists, with `ls_nr` the
sanitized and trimmed form field and `ls_nr_normalized := U.normLs(ls_nr)`. -/
def mkDoc (newId : Nat) (rawLs supplier date now uid : Str) : Doc :=
  { id := newId
    ls_nr := trim (sanitize rawLs)
    ls_nr_normalized := normLs (trim (sanitize rawLs))
    supplier := supplier
    date_doc := date
    status := ohneStatus
    created_at := now
    created_by := uid }

/-- C4: For every created document, the stored `ls_nr_normalized` is exactly
the spec's pure function (uppercase; strip `-`, `_`, `.`, whitespace; nothing
else) of the stored raw `ls_nr`, for every raw input string. -/
theorem ls_nr_normalized_pure (newId : Nat) (rawLs supplier date now uid : Str) :
    (mkDoc newId rawLs supplier date now uid).ls_nr_normalized
      = specNormalize (mkDoc newId rawLs supplier date now uid).ls_nr := by
  show normLs (trim (sanitize rawLs)) = specNormalize (trim (sanitize rawLs))
  unfold normLs specNormalize
  have h1 : sanitize (trim (sanitize rawLs)) = trim (sanitize rawLs) := by
    apply filter_eq_self_of_mem
    intro c hc
    have := mem_sanitize (mem_trim hc)
    simp [this]
  rw [h1]

/-! ### Duplicate detection (src/unnamed/part_000 lines 122-128, 792-828) -/

/-- Dropping a prefix whose members a filter would discard anyway does not
change the filter's result. -/
lemma filter_dropWhile_of_imp {p q : Nat → Bool} (h : ∀ c, q c = true → p c = false) :
    ∀ l : Str, (l.dropWhile q).filter p = l.filter p := by
  intro l
  induction l with
  | nil => rfl
  | cons a l ih =>
    by_cases ha : q a = true
    · rw [List.dropWhile_cons_of_pos ha, ih, List.filter_cons_of_neg]
      simp [h a ha]
    · rw [List.dropWhile_cons_of_neg ha]

/-- Trimming whitespace does not change the `[\s._-]`-stripped content. -/
lemma filter_strip_trim (l : Str) :
    (trim l).filter (fun c => !isStripCode c) = l.filter (fun c => !isStripCode c) := by
  have himp : ∀ c, isWsCode c = true → (fun c => !isStripCode c) c = false := by
    intro c hc
    simp [isStripCode, hc]
  unfold trim
  rw [List.filter_reverse, filter_dropWhile_of_imp himp, List.filter_reverse,
    List.reverse_reverse, filter_dropWhile_of_imp himp]

/-- The normalized number of the stored (sanitized, trimmed) field equals the
normalized number of the raw input. -/
lemma normLs_trim_sanitize (l : Str) : normLs (trim (sanitize l)) = normLs l := by
  unfold normLs
  have h1 : sanitize (trim (sanitize l)) = trim (sanitize l) := by
    apply filter_eq_self_of_mem
    intro c hc
    have := mem_sanitize (mem_trim hc)
    simp [this]
  rw [h1, filter_strip_trim]

/-- `DB.findInboundByLs`: all documents whose `ls_nr_normalized` matches. -/
def findInboundByLs (store : List Doc) (lsnorm : Str) : List Doc :=
  store.filter (fun d => decide (d.ls_nr_normalized = lsnorm))

/-- `UI.checkDuplicate`: is there a stored document with the same normalized
number, the same supplier and the same document date? -/
def checkDuplicate (store : List Doc) (lsNr supplier date : Str) : Bool :=
  (findInboundByLs store (normLs lsNr)).any
    (fun d => decide (d.supplier = supplier ∧ d.date_doc = date))

/-- Outcome of `UI.handleSubmit`. -/
inductive SubmitResult where
  | invalid : SubmitResult
  | duplicateWarning : SubmitResult
  | created : Doc → SubmitResult
deriving DecidableEq

/-- `UI.handleSubmit` (lines 798-828): sanitize and trim the fields, bail out
on empty input, show the duplicate warning unless the force checkbox is set,
otherwise persist a new document. -/
def handleSubmit (store : List Doc) (rawLs rawSupplier date : Str) (force : Bool)
    (newId : Nat) (now uid : Str) : SubmitResult × List Doc :=
  let ls_nr := trim (sanitize rawLs)
  let supplier := trim (sanitize rawSupplier)
  if ls_nr = [] ∨ supplier = [] ∨ date = [] then (.invalid, store)
  else if checkDuplicate store ls_nr supplier date && !force then (.duplicateWarning, store)
  else
    let doc := mkDoc newId rawLs supplier date now uid
    (.created doc, store ++ [doc])

/-- C1: a create attempt with non-empty fields returns the duplicate warning
and leaves the store unchanged when a stored document matches on normalized
number, supplier and date and the override flag is off; with the override
flag set a new document is appended regardless of matches. -/
theorem create_duplicate_policy (store : List Doc) (rawLs rawSupplier date : Str)
    (force : Bool) (newId : Nat) (now uid : Str)
    (hls : trim (sanitize rawLs) ≠ []) (hsup : trim (sanitize rawSupplier) ≠ [])
    (hdate : date ≠ []) :
    ((∃ d ∈ store, d.ls_nr_normalized = normLs rawLs ∧
        d.supplier = trim (sanitize rawSupplier) ∧ d.date_doc = date) →
      force = false →
      handleSubmit store rawLs rawSupplier date force newId now uid
        = (.duplicateWarning, store))
    ∧ (force = true →
      handleSubmit store rawLs rawSupplier date force newId now uid
        = (.created (mkDoc newId rawLs (trim (sanitize rawSupplier)) date now uid),
           store ++ [mkDoc newId rawLs (trim (sanitize rawSupplier)) date now uid])) := by
  constructor
  · rintro ⟨d, hd, hnorm, hsupp, hdat⟩ hforce
    have hdup : checkDuplicate store (trim (sanitize rawLs))
        (trim (sanitize rawSupplier)) date = true := by
      unfold checkDuplicate findInboundByLs
      rw [List.any_eq_true]
      refine ⟨d, ?_, ?_⟩
      · rw [List.mem_filter]
        refine ⟨hd, ?_⟩
        rw [normLs_trim_sanitize]
        simp [hnorm]
      · simp [hsupp, hdat]
    unfold handleSubmit
    simp [hls, hsup, hdate, hdup, hforce]
  · intro hforce
    unfold handleSubmit
    simp [hls, hsup, hdate, hforce]

/-- A stored document `(ls_nr: "A-100", supplier: "X", date: "2024")` for the
C1 witness (65 = A, 45 = -, 49/48 = 1/0, 88 = X, 50/52 = 2/4). -/
def sampleDoc : Doc where
  id := 1
  ls_nr := [65, 45, 49, 48, 48]
  ls_nr_normalized := [65, 49, 48, 48]
  supplier := [88]
  date_doc := [50, 48, 50, 52]
  status := ohneStatus
  created_at := []
  created_by := []

/-- Closed witness for C1: with `sampleDoc` stored, submitting `"a 100"`
(97 = a, 32 = space) for the same supplier and date without override yields
the duplicate warning and leaves the store unchanged. -/
theorem create_duplicate_policy_witness :
    (trim (sanitize [97, 32, 49, 48, 48]) ≠ [] ∧ trim (sanitize [88]) ≠ [] ∧
      ([50, 48, 50, 52] : Str) ≠ []) ∧
    handleSubmit [sampleDoc] [97, 32, 49, 48, 48] [88] [50, 48, 50, 52] false 2 [] []
      = (.duplicateWarning, [sampleDoc]) := by
  refine ⟨⟨by decide, by decide, by decide⟩, ?_⟩
  exact (create_duplicate_policy [sampleDoc] [97, 32, 49, 48, 48] [88] [50, 48, 50, 52]
    false 2 [] [] (by decide) (by decide) (by decide)).1
    ⟨sampleDoc, by decide, by decide, by decide, by decide⟩ rfl

/-! ### Image quality gate (src/unnamed/part_000 lines 413-447) -/

/-- Rejection taxonomy of the quality gate (spec §7): the source's
`validateBlob` returns `false` on its two distinct rejection branches; the
first is the spec's `TooSmall`, the second its `Blurry`. -/
inductive VResult where
  | ok : VResult
  | tooSmall : VResult
  | blurry : VResult
deriving DecidableEq

/-- `Camera.validateBlob`, with the two rejection branches kept apart:
resolution floor first (`max(width, height) < 1500`), then the sharpness
threshold (`score >= 60`). -/
def validateBlob (w h : Nat) (score : ℚ) : VResult :=
  if max w h < 1500 then .tooSmall
  else if score < 60 then .blurry
  else .ok

/-- `Camera.validateBlob` exactly as coded: a single boolean verdict. -/
def validateBlobBool (w h : Nat) (score : ℚ) : Bool :=
  if max w h < 1500 then false else decide (60 ≤ score)

/-- C6: any decodable buffer whose upright dimensions satisfy
`max(width, height) < 1500` is rejected as `TooSmall`, whatever its
sharpness score; the boolean gate likewise returns `false`. -/
theorem reject_too_small (w h : Nat) (score : ℚ) (hsize : max w h < 1500) :
    validateBlob w h score = .tooSmall ∧ validateBlobBool w h score = false := by
  unfold validateBlob validateBlobBool
  rw [if_pos hsize, if_pos hsize]
  exact ⟨rfl, rfl⟩

/-- Closed witness for C6: a 1000×800 buffer is rejected as `TooSmall` even
with an enormous sharpness score. -/
theorem reject_too_small_witness :
    max 1000 800 < 1500 ∧
    (validateBlob 1000 800 1000000 = .tooSmall ∧
      validateBlobBool 1000 800 1000000 = false) :=
  ⟨by decide, reject_too_small 1000 800 1000000 (by decide)⟩

/-- JS `Math.round`: round half away from zero; for the non-negative values
here, `⌊x + 1/2⌋`. -/
def jsRound (q : ℚ) : ℤ := ⌊q + 1 / 2⌋

/-- The scale factor of `captureVideoToBlob` / `drawBitmapToBlob`:
`Math.min(1, 2500 / Math.max(cw, ch))`. -/
def scaleFactor (cw ch : Nat) : ℚ := min 1 (2500 / (max cw ch : ℚ))

/-- The stored dimensions: `Math.round(cw * scale)` × `Math.round(ch * scale)`. -/
def scaleDims (cw ch : Nat) : ℤ × ℤ :=
  (jsRound (cw * scaleFactor cw ch), jsRound (ch * scaleFactor cw ch))

lemma jsRound_le_of_le {q b : ℚ} (h : q ≤ b) : jsRound q ≤ jsRound b :=
  Int.floor_le_floor (by linarith)

lemma jsRound_intCast (z : ℤ) : jsRound (z : ℚ) = z := by
  unfold jsRound
  rw [Int.floor_eq_iff]
  constructor <;> [skip; push_cast] <;> linarith

lemma scaleDims_4000_3000 : scaleDims 4000 3000 = (2500, 1875) := by
  have hsf : scaleFactor 4000 3000 = 5 / 8 := by
    unfold scaleFactor
    norm_num [min_def, max_def]
  unfold scaleDims
  rw [hsf]
  have h1 : ((4000 : ℕ) : ℚ) * (5 / 8) = ((2500 : ℤ) : ℚ) := by norm_num
  have h2 : ((3000 : ℕ) : ℚ) * (5 / 8) = ((1875 : ℤ) : ℚ) := by norm_num
  rw [h1, h2, jsRound_intCast, jsRound_intCast]

lemma jsRound_abs_le (q : ℚ) : |(jsRound q : ℚ) - q| ≤ 1 / 2 := by
  have h1 : (jsRound q : ℚ) ≤ q + 1 / 2 := Int.floor_le _
  have h2 : q + 1 / 2 < (jsRound q : ℚ) + 1 := Int.lt_floor_add_one _
  rw [abs_le]
  constructor <;> linarith

/-- C8: the stored encoding uses the scale factor `min(1, 2500/longerEdge)`:
the output's longer edge is at most 2500 px (exactly 2500 whenever the input
was larger), the image is never upscaled, both edges sit within half a pixel
of the exact aspect-preserving scaling, and a 4000×3000 buffer is stored as
2500×1875. -/
theorem stored_dims_bounded (cw ch : Nat) (hpos : 0 < max cw ch) :
    max (scaleDims cw ch).1 (scaleDims cw ch).2 ≤ 2500
    ∧ (scaleDims cw ch).1 ≤ (cw : ℤ) ∧ (scaleDims cw ch).2 ≤ (ch : ℤ)
    ∧ |((scaleDims cw ch).1 : ℚ) - cw * scaleFactor cw ch| ≤ 1 / 2
    ∧ |((scaleDims cw ch).2 : ℚ) - ch * scaleFactor cw ch| ≤ 1 / 2
    ∧ (2500 < max cw ch → max (scaleDims cw ch).1 (scaleDims cw ch).2 = 2500)
    ∧ scaleDims 4000 3000 = (2500, 1875) := by
  have hM : (0 : ℚ) < (max cw ch : ℚ) := by exact_mod_cast hpos
  have hs_le_one : scaleFactor cw ch ≤ 1 := min_le_left _ _
  have hs_nonneg : 0 ≤ scaleFactor cw ch := by
    apply le_min
    · norm_num
    · positivity
  have hcw_le : (cw : ℚ) ≤ (max cw ch : ℚ) := by exact_mod_cast Nat.le_max_left cw ch
  have hch_le : (ch : ℚ) ≤ (max cw ch : ℚ) := by exact_mod_cast Nat.le_max_right cw ch
  have hb : ∀ e : Nat, (e : ℚ) ≤ (max cw ch : ℚ) → jsRound (e * scaleFactor cw ch) ≤ 2500 := by
    intro e he
    have h1 : (e : ℚ) * scaleFactor cw ch ≤ 2500 := by
      have h2 : scaleFactor cw ch ≤ 2500 / (max cw ch : ℚ) := min_le_right _ _
      have h3 : (e : ℚ) * scaleFactor cw ch ≤ (max cw ch : ℚ) * (2500 / (max cw ch : ℚ)) := by
        apply mul_le_mul he h2 hs_nonneg (le_of_lt hM)
      rwa [mul_div_cancel₀ _ (ne_of_gt hM)] at h3
    calc jsRound ((e : ℚ) * scaleFactor cw ch) ≤ jsRound ((2500 : ℤ) : ℚ) := by
          apply jsRound_le_of_le
          push_cast
          linarith
      _ = 2500 := jsRound_intCast 2500
  have hnoup : ∀ e : Nat, jsRound (e * scaleFactor cw ch) ≤ (e : ℤ) := by
    intro e
    have h1 : (e : ℚ) * scaleFactor cw ch ≤ (e : ℚ) := by
      nlinarith [Nat.cast_nonneg (α := ℚ) e]
    calc jsRound ((e : ℚ) * scaleFactor cw ch) ≤ jsRound ((e : ℤ) : ℚ) := by
          apply jsRound_le_of_le
          push_cast
          linarith
      _ = e := jsRound_intCast e
  refine ⟨?_, hnoup cw, hnoup ch, jsRound_abs_le _, jsRound_abs_le _, ?_, ?_⟩
  · exact max_le (hb cw hcw_le) (hb ch hch_le)
  · intro hbig
    have hbigQ : (2500 : ℚ) < (max cw ch : ℚ) := by exact_mod_cast hbig
    have hsf : scaleFactor cw ch = 2500 / (max cw ch : ℚ) := by
      apply min_eq_right
      rw [div_le_one hM]
      linarith
    have hexact : ((max cw ch : Nat) : ℚ) * scaleFactor cw ch = 2500 := by
      rw [hsf]
      push_cast
      rw [mul_div_cancel₀ _ (ne_of_gt hM)]
    rcases Nat.le_total ch cw with hcase | hcase
    · have hmx : max cw ch = cw := Nat.max_eq_left hcase
      have h1 : (scaleDims cw ch).1 = 2500 := by
        show jsRound ((cw : ℚ) * scaleFactor cw ch) = 2500
        rw [show ((cw : ℚ)) = ((max cw ch : Nat) : ℚ) by rw [hmx], hexact]
        exact jsRound_intCast 2500
      have h2 : (scaleDims cw ch).2 ≤ 2500 := hb ch hch_le
      rw [h1]
      exact max_eq_left h2
    · have hmx : max cw ch = ch := Nat.max_eq_right hcase
      have h2 : (scaleDims cw ch).2 = 2500 := by
        show jsRound ((ch : ℚ) * scaleFactor cw ch) = 2500
        rw [show ((ch : ℚ)) = ((max cw ch : Nat) : ℚ) by rw [hmx], hexact]
        exact jsRound_intCast 2500
      have h1 : (scaleDims cw ch).1 ≤ 2500 := hb cw hcw_le
      rw [h2]
      exact max_eq_right h1
  · exact scaleDims_4000_3000

/-- Closed witness for C8 at the 4000×3000 buffer of the spec's example. -/
theorem stored_dims_bounded_witness :
    0 < max 4000 3000 ∧
    (max (scaleDims 4000 3000).1 (scaleDims 4000 3000).2 ≤ 2500
      ∧ (scaleDims 4000 3000).1 ≤ (4000 : ℤ) ∧ (scaleDims 4000 3000).2 ≤ (3000 : ℤ)
      ∧ |((scaleDims 4000 3000).1 : ℚ) - 4000 * scaleFactor 4000 3000| ≤ 1 / 2
      ∧ |((scaleDims 4000 3000).2 : ℚ) - 3000 * scaleFactor 4000 3000| ≤ 1 / 2
      ∧ (2500 < max 4000 3000 → max (scaleDims 4000 3000).1 (scaleDims 4000 3000).2 = 2500)
      ∧ scaleDims 4000 3000 = (2500, 1875)) :=
  ⟨by decide, stored_dims_bounded 4000 3000 (by decide)⟩

/-! ### Image pages of a document (src/unnamed/part_000 lines 389-411, 766-789)

The operations below act on one document's page list, i.e. on the array
`imgs = DB.listImages(inboundId)` the handlers work with. -/

/-- A capture held in `Camera.state.captures`. -/
structure Cap where
  w : Nat
  h : Nat
  sha : Str
  size : Nat
deriving DecidableEq

/-- An `inbound_images` record (timestamp/actor strings omitted). -/
structure Img where
  id : Nat
  inbound_id : Nat
  page_no : Nat
  width_px : Nat
  height_px : Nat
  size_bytes : Nat
  sha256 : Str
  synced : Bool
deriving DecidableEq

/-- `existing.length ? Math.max(...existing.map(i => i.page_no)) : 0`. -/
def maxPage (imgs : List Img) : Nat :=
  imgs.foldl (fun m im => max m im.page_no) 0

/-- The record `Camera.saveAll` persists for one capture. -/
def mkImg (newId iid page : Nat) (c : Cap) : Img :=
  { id := newId, inbound_id := iid, page_no := page, width_px := c.w,
    height_px := c.h, size_bytes := c.size, sha256 := c.sha, synced := false }

/-- The loop of `Camera.saveAll`: `page += 1` then `DB.addImage`. -/
def saveAllGo (iid : Nat) : List Img → Nat → List Cap → Nat → List Img
  | imgs, _, [], _ => imgs
  | imgs, page, c :: cs, newId =>
      saveAllGo iid (imgs ++ [mkImg newId iid (page + 1) c]) (page + 1) cs (newId + 1)

/-- `Camera.saveAll`: start from the maximum existing page number. -/
def saveAll (iid : Nat) (imgs : List Img) (caps : List Cap) (newId : Nat) : List Img :=
  saveAllGo iid imgs (maxPage imgs) caps newId

lemma maxPage_append_one (imgs : List Img) (im : Img) :
    maxPage (imgs ++ [im]) = max (maxPage imgs) im.page_no := by
  unfold maxPage
  rw [List.foldl_append]
  rfl

/-- Attaching one capture appends a record numbered one past the current
maximum, and the remaining captures are attached to the grown list. -/
lemma saveAll_cons (iid : Nat) (imgs : List Img) (c : Cap) (cs : List Cap) (newId : Nat) :
    saveAll iid imgs (c :: cs) newId
      = saveAll iid (imgs ++ [mkImg newId iid (maxPage imgs + 1) c]) cs (newId + 1) := by
  unfold saveAll
  rw [maxPage_append_one]
  have hpg : (mkImg newId iid (maxPage imgs + 1) c).page_no = maxPage imgs + 1 := rfl
  rw [hpg, Nat.max_eq_right (Nat.le_succ _)]
  rfl

/-- C2: each page attached by `saveAll` receives `page_no` one plus the
maximum page number stored for the document at the moment it is attached
(`maxPage [] = 0` for a fresh document), and attaching three pages to a
fresh document yields the `page_no` sequence `[1, 2, 3]`. -/
theorem attach_page_numbering (iid : Nat) :
    maxPage [] = 0
    ∧ (∀ imgs c cs newId,
        saveAll iid imgs (c :: cs) newId
          = saveAll iid (imgs ++ [mkImg newId iid (maxPage imgs + 1) c]) cs (newId + 1))
    ∧ (∀ c1 c2 c3 newId,
        (saveAll iid [] [c1, c2, c3] newId).map (fun im => im.page_no) = [1, 2, 3]) := by
  refine ⟨rfl, fun imgs c cs newId => saveAll_cons iid imgs c cs newId, ?_⟩
  intro c1 c2 c3 newId
  rfl

/-- The delete handler's renumber loop: `let p = 1; for (im of imgs) im.page_no = p++`. -/
def renumberFrom : Nat → List Img → List Img
  | _, [] => []
  | p, im :: rest => { im with page_no := p } :: renumberFrom (p + 1) rest

/-- The `btnDelete` handler: remove the selected record, renumber survivors
densely from 1. -/
def deletePageAt (imgs : List Img) (sel : Nat) : List Img :=
  renumberFrom 1 (imgs.eraseIdx sel)

/-- The `btnReorderUp`/`btnReorderDown` handlers: swap the `page_no` fields
of the entries at positions `n` and `n + 1`. -/
def swapAdjPages : List Img → Nat → List Img
  | [], _ => []
  | [x], _ => [x]
  | a :: b :: rest, 0 =>
      { a with page_no := b.page_no } :: { b with page_no := a.page_no } :: rest
  | a :: b :: rest, n + 1 => a :: swapAdjPages (b :: rest) n

/-- Spec §3 invariant: the multiset of `page_no` values of a document's
pages is exactly `1..N`. -/
def DensePages (imgs : List Img) : Prop :=
  (imgs.map (fun im => im.page_no)).Perm (List.range' 1 imgs.length)

lemma foldl_max_perm {l1 l2 : List Nat} (h : l1.Perm l2) :
    ∀ a : Nat, l1.foldl max a = l2.foldl max a := by
  induction h with
  | nil => intro a; rfl
  | cons x _ ih =>
    intro a
    simp only [List.foldl_cons]
    exact ih _
  | swap x y l =>
    intro a
    simp only [List.foldl_cons]
    have hswap : a ⊔ y ⊔ x = a ⊔ x ⊔ y := by
      rw [max_assoc, max_assoc, max_comm y x]
    rw [hswap]
  | trans _ _ ih1 ih2 =>
    intro a
    rw [ih1 a, ih2 a]

lemma foldl_max_range' : ∀ n a : Nat, (List.range' 1 n).foldl max a = max a n := by
  intro n
  induction n with
  | zero => intro a; simp
  | succ k ih =>
    intro a
    rw [List.range'_concat, List.foldl_append, ih]
    simp only [List.foldl_cons, List.foldl_nil]
    omega

lemma maxPage_of_dense {imgs : List Img} (h : DensePages imgs) :
    maxPage imgs = imgs.length := by
  unfold maxPage
  rw [← List.foldl_map (fun im : Img => im.page_no) max]
  rw [foldl_max_perm h 0, foldl_max_range']
  omega

lemma renumberFrom_map : ∀ (l : List Img) (p : Nat),
    (renumberFrom p l).map (fun im => im.page_no) = List.range' p l.length := by
  intro l
  induction l with
  | nil => intro p; rfl
  | cons im rest ih =>
    intro p
    show p :: (renumberFrom (p + 1) rest).map (fun im => im.page_no)
      = List.range' p (rest.length + 1)
    rw [ih, List.range'_succ]

lemma renumberFrom_length : ∀ (l : List Img) (p : Nat),
    (renumberFrom p l).length = l.length := by
  intro l
  induction l with
  | nil => intro p; rfl
  | cons im rest ih =>
    intro p
    show (renumberFrom (p + 1) rest).length + 1 = rest.length + 1
    rw [ih]

lemma swapAdjPages_map_perm : ∀ (n : Nat) (l : List Img),
    ((swapAdjPages l n).map (fun im => im.page_no)).Perm
      (l.map (fun im => im.page_no)) := by
  intro n
  induction n with
  | zero =>
    intro l
    match l with
    | [] => exact List.Perm.refl _
    | [x] => exact List.Perm.refl _
    | a :: b :: rest =>
      simp only [swapAdjPages, List.map_cons]
      exact List.Perm.swap _ _ _
  | succ k ih =>
    intro l
    match l with
    | [] => exact List.Perm.refl _
    | [x] => exact List.Perm.refl _
    | a :: b :: rest =>
      simp only [swapAdjPages, List.map_cons]
      exact List.Perm.cons _ (ih (b :: rest))

lemma swapAdjPages_length : ∀ (n : Nat) (l : List Img),
    (swapAdjPages l n).length = l.length := by
  intro n
  have h := swapAdjPages_map_perm n
  intro l
  have := (h l).length_eq
  simpa using this

lemma dense_attach_one {imgs : List Img} (h : DensePages imgs)
    (newId iid : Nat) (c : Cap) :
    DensePages (imgs ++ [mkImg newId iid (maxPage imgs + 1) c]) := by
  unfold DensePages at *
  rw [List.map_append, List.length_append]
  have hmx := maxPage_of_dense h
  show ((imgs.map fun im => im.page_no) ++ [maxPage imgs + 1]).Perm
    (List.range' 1 (imgs.length + 1))
  rw [List.range'_concat, hmx]
  have hstep : 1 + 1 * imgs.length = imgs.length + 1 := by omega
  rw [hstep]
  exact h.append (List.Perm.refl _)

lemma saveAll_dense (iid : Nat) : ∀ (caps : List Cap) (imgs : List Img) (newId : Nat),
    DensePages imgs → DensePages (saveAll iid imgs caps newId) := by
  intro caps
  induction caps with
  | nil => intro imgs newId h; exact h
  | cons c cs ih =>
    intro imgs newId h
    rw [saveAll_cons]
    exact ih _ _ (dense_attach_one h newId iid c)

/-- C3: from a dense page list, every page operation — attaching captures,
deleting the selected page (which renumbers survivors), or swapping two
adjacent pages' numbers — leaves the document's `page_no` multiset exactly
`1..N`; deleting from a three-page document leaves survivors numbered
`[1, 2]`. -/
theorem page_numbers_stay_dense (imgs : List Img) (h : DensePages imgs) :
    (∀ iid caps newId, DensePages (saveAll iid imgs caps newId))
    ∧ (∀ sel, sel < imgs.length →
        DensePages (deletePageAt imgs sel)
          ∧ (deletePageAt imgs sel).length = imgs.length - 1)
    ∧ (∀ n, DensePages (swapAdjPages imgs n))
    ∧ (imgs.length = 3 →
        (deletePageAt imgs 1).map (fun im => im.page_no) = [1, 2]) := by
  refine ⟨fun iid caps newId => saveAll_dense iid caps imgs newId h, ?_, ?_, ?_⟩
  · intro sel hsel
    have hlen : (imgs.eraseIdx sel).length = imgs.length - 1 :=
      List.length_eraseIdx_of_lt hsel
    constructor
    · unfold DensePages deletePageAt
      rw [renumberFrom_map, renumberFrom_length]
    · unfold deletePageAt
      rw [renumberFrom_length, hlen]
  · intro n
    unfold DensePages
    rw [swapAdjPages_length]
    exact (swapAdjPages_map_perm n imgs).trans h
  · intro hlen
    rcases List.length_eq_three.mp hlen with ⟨a, b, c, rfl⟩
    rfl

/-- Three stored pages numbered 1, 2, 3 for the C3 witness. -/
def samplePages : List Img :=
  [{ id := 1, inbound_id := 7, page_no := 1, width_px := 2500, height_px := 1875,
     size_bytes := 5, sha256 := [], synced := false },
   { id := 2, inbound_id := 7, page_no := 2, width_px := 2500, height_px := 1875,
     size_bytes := 5, sha256 := [], synced := false },
   { id := 3, inbound_id := 7, page_no := 3, width_px := 2500, height_px := 1875,
     size_bytes := 5, sha256 := [], synced := true }]

/-- Closed witness for C3: on the concrete three-page document, deleting the
page with `page_no = 2` (selection index 1) renumbers the survivors to
`[1, 2]`, and density is preserved. -/
theorem page_numbers_stay_dense_witness :
    DensePages samplePages ∧
    ((∀ iid caps newId, DensePages (saveAll iid samplePages caps newId))
    ∧ (∀ sel, sel < samplePages.length →
        DensePages (deletePageAt samplePages sel)
          ∧ (deletePageAt samplePages sel).length = samplePages.length - 1)
    ∧ (∀ n, DensePages (swapAdjPages samplePages n))
    ∧ (samplePages.length = 3 →
        (deletePageAt samplePages 1).map (fun im => im.page_no) = [1, 2])) := by
  have hd : DensePages samplePages := List.Perm.refl _
  exact ⟨hd, page_numbers_stay_dense samplePages hd⟩

/-! ### Sharpness score (src/unnamed/part_000 lines 449-488)

`laplacianVariance` works on the pixel grid obtained from the (possibly
performance-downscaled) canvas; the grid is modelled as a function from
coordinates to RGB values, JS number arithmetic as `ℚ`. -/

/-- A pixel grid: `(x, y) ↦ (r, g, b)`. -/
abbrev Pix := Nat → Nat → Nat × Nat × Nat

/-- The grayscale conversion `0.299*R + 0.587*G + 0.114*B`. -/
def grayAt (pix : Pix) (x y : Nat) : ℚ :=
  (299 / 1000) * ((pix x y).1 : ℚ) + (587 / 1000) * ((pix x y).2.1 : ℚ)
    + (114 / 1000) * ((pix x y).2.2 : ℚ)

/-- The kernel response at `(x, y)` with `k = [0,1,0,1,-4,1,0,1,0]`,
written with all nine taps as in the source. -/
def lapAt (pix : Pix) (x y : Nat) : ℚ :=
  0 * grayAt pix (x - 1) (y - 1) + 1 * grayAt pix x (y - 1) + 0 * grayAt pix (x + 1) (y - 1)
  + 1 * grayAt pix (x - 1) y + (-4) * grayAt pix x y + 1 * grayAt pix (x + 1) y
  + 0 * grayAt pix (x - 1) (y + 1) + 1 * grayAt pix x (y + 1) + 0 * grayAt pix (x + 1) (y + 1)

/-- Interior pixels: `x` in `1..w-2`, `y` in `1..h-2` (1-pixel border excluded). -/
def interior (w h : Nat) : Finset (Nat × Nat) :=
  Finset.Ico 1 (w - 1) ×ˢ Finset.Ico 1 (h - 1)

/-- The loop accumulator `sum`. -/
def lapSum (pix : Pix) (w h : Nat) : ℚ :=
  ∑ p ∈ interior w h, lapAt pix p.1 p.2

/-- The loop accumulator `sum2`. -/
def lapSqSum (pix : Pix) (w h : Nat) : ℚ :=
  ∑ p ∈ interior w h, lapAt pix p.1 p.2 * lapAt pix p.1 p.2

/-- `n = (w - 2) * (h - 2)` in JS number arithmetic. -/
def nInterior (w h : Nat) : ℚ := ((w : ℚ) - 2) * ((h : ℚ) - 2)

/-- The score as coded: `mean = sum/n; varr = sum2/n - mean*mean; varr/100`. -/
def laplacianVariance (pix : Pix) (w h : Nat) : ℚ :=
  (lapSqSum pix w h / nInterior w h
    - lapSum pix w h / nInterior w h * (lapSum pix w h / nInterior w h)) / 100

/-- Modelled from the spec's words (§4.3): the population variance of the
kernel response over all interior pixels, divided by 100. -/
def specSharpness (pix : Pix) (w h : Nat) : ℚ :=
  (∑ p ∈ interior w h, (lapAt pix p.1 p.2 - lapSum pix w h / nInterior w h) ^ 2)
    / nInterior w h / 100

lemma card_interior (w h : Nat) (hw : 2 ≤ w) (hh : 2 ≤ h) :
    ((interior w h).card : ℚ) = nInterior w h := by
  unfold interior nInterior
  rw [Finset.card_product, Nat.card_Ico, Nat.card_Ico]
  have h1 : w - 1 - 1 = w - 2 := by omega
  have h2 : h - 1 - 1 = h - 2 := by omega
  rw [h1, h2]
  push_cast [Nat.cast_sub (by omega : 2 ≤ w), Nat.cast_sub (by omega : 2 ≤ h)]
  ring

lemma flat_lapAt_zero {pix : Pix} {rgb : Nat × Nat × Nat}
    (hflat : ∀ x y, pix x y = rgb) (x y : Nat) : lapAt pix x y = 0 := by
  have hg : ∀ u v : Nat, grayAt pix u v = grayAt pix 0 0 := by
    intro u v
    unfold grayAt
    rw [hflat u v, hflat 0 0]
  unfold lapAt
  rw [hg (x - 1) (y - 1), hg x (y - 1), hg (x + 1) (y - 1), hg (x - 1) y, hg x y,
    hg (x + 1) y, hg (x - 1) (y + 1), hg x (y + 1), hg (x + 1) (y + 1)]
  ring

/-- C7: for grids with at least one interior pixel the coded score equals the
spec's reference definition (population variance of the 4-neighbour Laplacian
response over interior pixels, divided by 100); a uniform flat-colour grid
scores exactly 0 and, at admissible resolution, is rejected as `Blurry`. -/
theorem sharpness_score_spec (pix : Pix) (w h : Nat) (hw : 3 ≤ w) (hh : 3 ≤ h) :
    laplacianVariance pix w h = specSharpness pix w h
    ∧ (∀ rgb : Nat × Nat × Nat, (∀ x y, pix x y = rgb) →
        laplacianVariance pix w h = 0)
    ∧ (∀ rgb : Nat × Nat × Nat, (∀ x y, pix x y = rgb) → 1500 ≤ max w h →
        validateBlob w h (laplacianVariance pix w h) = .blurry) := by
  have hn : nInterior w h ≠ 0 := by
    unfold nInterior
    have h1 : (3 : ℚ) ≤ (w : ℚ) := by exact_mod_cast hw
    have h2 : (3 : ℚ) ≤ (h : ℚ) := by exact_mod_cast hh
    exact mul_ne_zero (ne_of_gt (by linarith)) (ne_of_gt (by linarith))
  have hflatzero : ∀ rgb : Nat × Nat × Nat, (∀ x y, pix x y = rgb) →
      laplacianVariance pix w h = 0 := by
    intro rgb hflat
    have hS1 : lapSum pix w h = 0 := by
      unfold lapSum
      apply Finset.sum_eq_zero
      intro p _
      exact flat_lapAt_zero hflat p.1 p.2
    have hS2 : lapSqSum pix w h = 0 := by
      unfold lapSqSum
      apply Finset.sum_eq_zero
      intro p _
      rw [flat_lapAt_zero hflat p.1 p.2]
      ring
    unfold laplacianVariance
    rw [hS1, hS2]
    simp
  refine ⟨?_, hflatzero, ?_⟩
  · have expand : ∀ p ∈ interior w h,
        (lapAt pix p.1 p.2 - lapSum pix w h / nInterior w h) ^ 2
          = lapAt pix p.1 p.2 * lapAt pix p.1 p.2
            - 2 * (lapSum pix w h / nInterior w h) * lapAt pix p.1 p.2
            + (lapSum pix w h / nInterior w h) ^ 2 := by
      intro p _
      ring
    have key : ∑ p ∈ interior w h,
        (lapAt pix p.1 p.2 - lapSum pix w h / nInterior w h) ^ 2
          = lapSqSum pix w h
            - 2 * (lapSum pix w h / nInterior w h) * lapSum pix w h
            + nInterior w h * (lapSum pix w h / nInterior w h) ^ 2 := by
      rw [Finset.sum_congr rfl expand, Finset.sum_add_distrib, Finset.sum_sub_distrib,
        ← Finset.mul_sum, Finset.sum_const, nsmul_eq_mul,
        card_interior w h (by omega) (by omega)]
      rfl
    unfold laplacianVariance specSharpness
    rw [key]
    field_simp
    ring
  · intro rgb hflat hsize
    rw [hflatzero rgb hflat]
    unfold validateBlob
    rw [if_neg (by omega), if_pos (by norm_num)]

/-- The flat black pixel grid of the C7 witness. -/
def blackPix : Pix := fun _ _ => (0, 0, 0)

/-- Closed witness for C7 on a flat black 1500×3 grid: the coded score equals
the reference definition, is 0, and the gate answers `Blurry`. -/
theorem sharpness_score_spec_witness :
    ((3 : Nat) ≤ 1500 ∧ (3 : Nat) ≤ 3) ∧
    (laplacianVariance blackPix 1500 3 = specSharpness blackPix 1500 3
      ∧ (∀ rgb : Nat × Nat × Nat, (∀ x y, blackPix x y = rgb) →
          laplacianVariance blackPix 1500 3 = 0)
      ∧ (∀ rgb : Nat × Nat × Nat, (∀ x y, blackPix x y = rgb) →
          1500 ≤ max 1500 3 →
          validateBlob 1500 3 (laplacianVariance blackPix 1500 3) = .blurry)) :=
  ⟨⟨by decide, by decide⟩,
    sharpness_score_spec blackPix 1500 3 (by decide) (by decide)⟩

/-! ### Sync badge (src/unnamed/part_000 lines 129-136, 147-176, 563-587) -/

/-- Ascending lexicographic comparator on code-unit strings, the order
`localeCompare` induces for the app's ASCII data. -/
def strLe : Str → Str → Bool
  | [], _ => true
  | _ :: _, [] => false
  | a :: as, b :: bs => if a < b then true else if b < a then false else strLe as bs

/-- `DB.listInboundByStatus`: filter on the `by_status` index, sort by
`created_at`. -/
def listInboundByStatus (docs : List Doc) (st : Str) : List Doc :=
  (docs.filter (fun d => decide (d.status = st))).mergeSort
    (fun a b => strLe a.created_at b.created_at)

/-- `DB.listImages`: filter on the `by_inbound` index, sort by `page_no`. -/
def listImages (imgs : List Img) (iid : Nat) : List Img :=
  (imgs.filter (fun im => decide (im.inbound_id = iid))).mergeSort
    (fun a b => decide (a.page_no ≤ b.page_no))

/-- `DB.putImage`: upsert by primary key `id`. -/
def putImg (store : List Img) (im : Img) : List Img :=
  if store.any (fun x => decide (x.id = im.id)) then
    store.map (fun x => if x.id = im.id then im else x)
  else store ++ [im]

/-- `im.synced = true` before `DB.putImage(im)`. -/
def setSynced (im : Img) : Img := { im with synced := true }

/-- `const all = [...ohne, ...mit]` of `UI.bumpSyncBadge`. -/
def allDocs (docs : List Doc) : List Doc :=
  listInboundByStatus docs ohneStatus ++ listInboundByStatus docs mitStatus

/-- One document's contribution: `imgs.filter(i => !i.synced).length`. -/
def pendingOf (imgs : List Img) (d : Doc) : Nat :=
  ((listImages imgs d.id).filter (fun im => !im.synced)).length

/-- The pending count of `UI.bumpSyncBadge`. -/
def bumpPending (docs : List Doc) (imgs : List Img) : Nat :=
  (allDocs docs).foldl (fun acc d => acc + pendingOf imgs d) 0

/-- The inner acknowledge loop of `UI.bumpSyncBadge`: re-read the document's
images, mark each unsynced one and put it back. -/
def ackDoc (imgs : List Img) (d : Doc) : List Img :=
  (listImages imgs d.id).foldl
    (fun st im => if im.synced then st else putImg st (setSynced im)) imgs

/-- The acknowledge-all pass of `UI.bumpSyncBadge` over all listed documents. -/
def ackAll (docs : List Doc) (imgs : List Img) : List Img :=
  (allDocs docs).foldl ackDoc imgs

/-! #### Counting the pending images -/

lemma foldl_add_map (D : List Doc) (f : Doc → Nat) :
    ∀ acc : Nat, D.foldl (fun a d => a + f d) acc = acc + (D.map f).sum := by
  induction D with
  | nil => intro acc; simp
  | cons d D ih =>
    intro acc
    simp only [List.foldl_cons, List.map_cons, List.sum_cons]
    rw [ih]
    omega

lemma pendingOf_eq_filter (imgs : List Img) (d : Doc) :
    pendingOf imgs d
      = (imgs.filter (fun im => decide (im.inbound_id = d.id) && !im.synced)).length := by
  unfold pendingOf listImages
  have hperm := List.mergeSort_perm
    (imgs.filter (fun im => decide (im.inbound_id = d.id)))
    (fun a b => decide (a.page_no ≤ b.page_no))
  rw [(hperm.filter (fun im => !im.synced)).length_eq, List.filter_filter]
  apply congrArg
  apply List.filter_congr
  intro im _
  rw [Bool.and_comm]

lemma sum_map_ite_add (c : Doc → Bool) (g : Doc → Nat) :
    ∀ D : List Doc,
      (D.map (fun d => (if c d then 1 else 0) + g d)).sum = D.countP c + (D.map g).sum := by
  intro D
  induction D with
  | nil => simp
  | cons d D ih =>
    simp only [List.map_cons, List.sum_cons, List.countP_cons, ih]
    split <;> omega

lemma sum_filter_lengths (D : List Doc) :
    ∀ I : List Img,
      (∀ im ∈ I, im.synced = false →
        D.countP (fun d => decide (im.inbound_id = d.id)) = 1) →
      (D.map (fun d =>
          (I.filter (fun im => decide (im.inbound_id = d.id) && !im.synced)).length)).sum
        = (I.filter (fun im => !im.synced)).length := by
  intro I
  induction I with
  | nil => intro _; simp
  | cons im I ih =>
    intro hcnt
    have hlen : ∀ d : Doc,
        ((im :: I).filter (fun x => decide (x.inbound_id = d.id) && !x.synced)).length
          = (if decide (im.inbound_id = d.id) && !im.synced then 1 else 0)
            + (I.filter (fun x => decide (x.inbound_id = d.id) && !x.synced)).length := by
      intro d
      rw [List.filter_cons]
      split
      · next hc =>
        simp [hc]
        omega
      · next hc => simp [hc]
    have hmapeq : D.map (fun d =>
          ((im :: I).filter (fun x => decide (x.inbound_id = d.id) && !x.synced)).length)
        = D.map (fun d => (if decide (im.inbound_id = d.id) && !im.synced then 1 else 0)
            + (I.filter (fun x => decide (x.inbound_id = d.id) && !x.synced)).length) := by
      apply List.map_congr_left
      intro d _
      exact hlen d
    rw [hmapeq, sum_map_ite_add, ih (fun x hx => hcnt x (List.mem_cons_of_mem im hx))]
    by_cases hs : im.synced
    · have hc0 : D.countP (fun d => decide (im.inbound_id = d.id) && !im.synced) = 0 := by
        apply List.countP_eq_zero.mpr
        intro d _
        simp [hs]
      rw [hc0, List.filter_cons_of_neg (by simp [hs])]
      omega
    · have hs' : im.synced = false := by simpa using hs
      have hc1 : D.countP (fun d => decide (im.inbound_id = d.id) && !im.synced)
          = D.countP (fun d => decide (im.inbound_id = d.id)) := by
        apply List.countP_congr
        intro d _
        simp [hs']
      rw [hc1, hcnt im (List.mem_cons_self im I) hs',
        List.filter_cons_of_pos (by simp [hs'])]
      simp only [List.length_cons]
      omega

/-- `ohne_zeichnung` and `mit_zeichnung` are different strings. -/
lemma ohne_ne_mit : ohneStatus ≠ mitStatus := by decide

lemma countP_status_split (p : Doc → Bool) :
    ∀ docs : List Doc,
      (∀ d ∈ docs, d.status = ohneStatus ∨ d.status = mitStatus) →
      docs.countP (fun d => p d && decide (d.status = ohneStatus))
        + docs.countP (fun d => p d && decide (d.status = mitStatus))
        = docs.countP p := by
  intro docs
  induction docs with
  | nil => intro _; rfl
  | cons d docs ih =>
    intro hst
    have hd := hst d (List.mem_cons_self d docs)
    have hrest := ih (fun x hx => hst x (List.mem_cons_of_mem d hx))
    simp only [List.countP_cons]
    rcases hd with hd | hd
    · have h1 : decide (d.status = ohneStatus) = true := by rw [hd]; decide
      have h2 : decide (d.status = mitStatus) = false := by rw [hd]; decide
      rw [h1, h2]
      cases hp : p d <;> simp <;> omega
    · have h1 : decide (d.status = ohneStatus) = false := by rw [hd]; decide
      have h2 : decide (d.status = mitStatus) = true := by rw [hd]; decide
      rw [h1, h2]
      cases hp : p d <;> simp <;> omega

/-- Each image's owning document occurs exactly once in the badge's
document list. -/
lemma countP_allDocs_eq_one (docs : List Doc)
    (hnd : (docs.map (fun d => d.id)).Nodup)
    (hst : ∀ d ∈ docs, d.status = ohneStatus ∨ d.status = mitStatus)
    (v : Nat) (hv : v ∈ docs.map (fun d => d.id)) :
    (allDocs docs).countP (fun d => decide (v = d.id)) = 1 := by
  unfold allDocs listInboundByStatus
  rw [List.countP_append,
    (List.mergeSort_perm _ _).countP_eq, (List.mergeSort_perm _ _).countP_eq,
    List.countP_filter, List.countP_filter, countP_status_split _ docs hst]
  have h1 : docs.countP (fun d => decide (v = d.id))
      = (docs.map (fun d => d.id)).countP (fun x => decide (v = x)) := by
    rw [List.countP_map]
    rfl
  have h2 : (docs.map (fun d => d.id)).countP (fun x => decide (v = x))
      = (docs.map (fun d => d.id)).countP (fun x => decide (x = v)) := by
    apply List.countP_congr
    intro x _
    simp only [decide_eq_true_eq]
    exact eq_comm
  have h3 : (docs.map (fun d => d.id)).countP (fun x => decide (x = v))
      = (docs.map (fun d => d.id)).count v := rfl
  rw [h1, h2, h3]
  exact List.count_eq_one_of_mem hnd hv

/-- The badge's pending count equals the number of unsynced images, provided
document ids are unique, every document carries one of the two listed
statuses, and every image belongs to a stored document. -/
lemma bumpPending_eq_unsynced (docs : List Doc) (imgs : List Img)
    (hnd : (docs.map (fun d => d.id)).Nodup)
    (hst : ∀ d ∈ docs, d.status = ohneStatus ∨ d.status = mitStatus)
    (hcov : ∀ im ∈ imgs, im.inbound_id ∈ docs.map (fun d => d.id)) :
    bumpPending docs imgs = (imgs.filter (fun im => !im.synced)).length := by
  unfold bumpPending
  rw [foldl_add_map]
  have hmapeq : (allDocs docs).map (fun d => pendingOf imgs d)
      = (allDocs docs).map (fun d =>
          (imgs.filter (fun im => decide (im.inbound_id = d.id) && !im.synced)).length) := by
    apply List.map_congr_left
    intro d _
    exact pendingOf_eq_filter imgs d
  rw [hmapeq]
  have hcnt : ∀ im ∈ imgs, im.synced = false →
      (allDocs docs).countP (fun d => decide (im.inbound_id = d.id)) = 1 := by
    intro im him _
    exact countP_allDocs_eq_one docs hnd hst im.inbound_id (hcov im him)
  rw [sum_filter_lengths (allDocs docs) imgs hcnt]
  omega

/-! #### The acknowledge-all pass -/

lemma setSynced_synced_eq (im : Img) (h : im.synced = true) : setSynced im = im := by
  cases im
  unfold setSynced
  simp_all

lemma ids_mapIf (base : List Img) (done : List Nat) :
    (base.map (fun x => if x.id ∈ done then setSynced x else x)).map (fun im => im.id)
      = base.map (fun im => im.id) := by
  rw [List.map_map]
  apply List.map_congr_left
  intro x _
  show (if x.id ∈ done then setSynced x else x).id = x.id
  split <;> rfl

/-- Running the acknowledge loop over a read list `L` of pairwise-distinct
stored images marks exactly the ids of `L` (on top of already-marked `done`). -/
lemma ackFold_char (base : List Img) (hnd : (base.map (fun im => im.id)).Nodup) :
    ∀ (L : List Img) (done : List Nat),
      (∀ im ∈ L, im ∈ base) →
      (L.map (fun im => im.id)).Nodup →
      (∀ im ∈ L, im.id ∉ done) →
      L.foldl (fun st im => if im.synced then st else putImg st (setSynced im))
          (base.map (fun x => if x.id ∈ done then setSynced x else x))
        = base.map (fun x =>
            if x.id ∈ done ∨ x.id ∈ L.map (fun im => im.id) then setSynced x else x) := by
  intro L
  induction L with
  | nil =>
    intro done _ _ _
    simp only [List.foldl_nil, List.map_nil]
    apply List.map_congr_left
    intro x _
    apply if_congr _ rfl rfl
    simp
  | cons im L ih =>
    intro done hsub hnodup hnodone
    have him_base : im ∈ base := hsub im (List.mem_cons_self im L)
    have him_nodone : im.id ∉ done := hnodone im (List.mem_cons_self im L)
    have hLsub : ∀ x ∈ L, x ∈ base := fun x hx => hsub x (List.mem_cons_of_mem im hx)
    rw [List.map_cons] at hnodup
    obtain ⟨hidnotin, hnodupL⟩ := List.nodup_cons.mp hnodup
    have hnodone' : ∀ x ∈ L, x.id ∉ (im.id :: done) := by
      intro x hx
      rw [List.mem_cons]
      push_neg
      refine ⟨?_, hnodone x (List.mem_cons_of_mem im hx)⟩
      intro hxe
      exact hidnotin (hxe ▸ List.mem_map_of_mem (fun im => im.id) hx)
    have hstep : (if im.synced
          then base.map (fun x => if x.id ∈ done then setSynced x else x)
          else putImg (base.map (fun x => if x.id ∈ done then setSynced x else x))
            (setSynced im))
        = base.map (fun x => if x.id ∈ (im.id :: done) then setSynced x else x) := by
      by_cases hs : im.synced = true
      · rw [if_pos hs]
        apply List.map_congr_left
        intro x hx
        by_cases hxd : x.id ∈ done
        · rw [if_pos hxd, if_pos (List.mem_cons_of_mem _ hxd)]
        · rw [if_neg hxd]
          by_cases hxe : x.id = im.id
          · have hxim : x = im := List.inj_on_of_nodup_map hnd hx him_base hxe
            rw [if_pos (by rw [List.mem_cons]; exact Or.inl hxe), hxim,
              setSynced_synced_eq im hs]
          · rw [if_neg (by rw [List.mem_cons]; push_neg; exact ⟨hxe, hxd⟩)]
      · rw [if_neg hs]
        have hany : (base.map (fun x => if x.id ∈ done then setSynced x else x)).any
            (fun x => decide (x.id = (setSynced im).id)) = true := by
          rw [List.any_eq_true]
          refine ⟨if im.id ∈ done then setSynced im else im,
            List.mem_map_of_mem _ him_base, ?_⟩
          rw [if_neg him_nodone]
          simp [setSynced]
        unfold putImg
        rw [if_pos hany, List.map_map]
        apply List.map_congr_left
        intro x hx
        show (if (if x.id ∈ done then setSynced x else x).id = (setSynced im).id
            then setSynced im else if x.id ∈ done then setSynced x else x)
          = if x.id ∈ im.id :: done then setSynced x else x
        have hfid : (if x.id ∈ done then setSynced x else x).id = x.id := by
          split <;> rfl
        rw [hfid]
        show (if x.id = im.id then setSynced im
            else if x.id ∈ done then setSynced x else x)
          = if x.id ∈ im.id :: done then setSynced x else x
        by_cases hxe : x.id = im.id
        · have hxim : x = im := List.inj_on_of_nodup_map hnd hx him_base hxe
          rw [if_pos hxe, if_pos (by rw [List.mem_cons]; exact Or.inl hxe), hxim]
        · rw [if_neg hxe]
          by_cases hxd : x.id ∈ done
          · rw [if_pos hxd, if_pos (List.mem_cons_of_mem _ hxd)]
          · rw [if_neg hxd, if_neg (by rw [List.mem_cons]; push_neg; exact ⟨hxe, hxd⟩)]
    simp only [List.foldl_cons]
    rw [hstep, ih (im.id :: done) hLsub hnodupL hnodone']
    apply List.map_congr_left
    intro x _
    apply if_congr _ rfl rfl
    simp only [List.mem_cons, List.map_cons]
    tauto

lemma setSynced_setSynced (x : Img) : setSynced (setSynced x) = setSynced x := rfl

lemma mem_listImages_iff (imgs : List Img) (iid : Nat) (x : Img) :
    x ∈ listImages imgs iid ↔ x ∈ imgs ∧ x.inbound_id = iid := by
  unfold listImages
  rw [(List.mergeSort_perm _ _).mem_iff, List.mem_filter]
  simp

lemma listImages_ids_nodup (imgs : List Img) (iid : Nat)
    (hnd : (imgs.map (fun im => im.id)).Nodup) :
    ((listImages imgs iid).map (fun im => im.id)).Nodup := by
  unfold listImages
  have hperm := (List.mergeSort_perm
    (imgs.filter (fun im => decide (im.inbound_id = iid)))
    (fun a b => decide (a.page_no ≤ b.page_no))).map (fun im => im.id)
  rw [hperm.nodup_iff]
  exact ((List.filter_sublist imgs).map (fun im => im.id)).nodup hnd

lemma ackDoc_char (base : List Img) (d : Doc)
    (hnd : (base.map (fun im => im.id)).Nodup) :
    ackDoc base d = base.map (fun x => if x.inbound_id = d.id then setSynced x else x) := by
  have hsub : ∀ x ∈ listImages base d.id, x ∈ base := by
    intro x hx
    exact ((mem_listImages_iff base d.id x).mp hx).1
  have h := ackFold_char base hnd (listImages base d.id) [] hsub
    (listImages_ids_nodup base d.id hnd) (fun x _ => List.not_mem_nil x.id)
  have hbase0 : base.map (fun x => if x.id ∈ ([] : List Nat) then setSynced x else x)
      = base := by
    have h1 : base.map (fun x => if x.id ∈ ([] : List Nat) then setSynced x else x)
        = base.map (fun x => x) := by
      apply List.map_congr_left
      intro x _
      exact if_neg (List.not_mem_nil x.id)
    rw [h1, List.map_id']
  rw [hbase0] at h
  unfold ackDoc
  rw [h]
  apply List.map_congr_left
  intro x hx
  apply if_congr _ rfl rfl
  simp only [List.not_mem_nil, false_or]
  constructor
  · intro hidmem
    rcases List.mem_map.mp hidmem with ⟨y, hyL, hyid⟩
    have hy_base : y ∈ base := hsub y hyL
    have hyx : y = x := List.inj_on_of_nodup_map hnd hy_base hx hyid
    have := ((mem_listImages_iff base d.id y).mp hyL).2
    rw [← hyx]
    exact this
  · intro hib
    exact List.mem_map_of_mem (fun im => im.id)
      ((mem_listImages_iff base d.id x).mpr ⟨hx, hib⟩)

lemma ackDoc_ids (base : List Img) (d : Doc)
    (hnd : (base.map (fun im => im.id)).Nodup) :
    (ackDoc base d).map (fun im => im.id) = base.map (fun im => im.id) := by
  rw [ackDoc_char base d hnd, List.map_map]
  apply List.map_congr_left
  intro x _
  show (if x.inbound_id = d.id then setSynced x else x).id = x.id
  split <;> rfl

lemma ackAll_fold (D : List Doc) :
    ∀ st : List Img, (st.map (fun im => im.id)).Nodup →
      D.foldl ackDoc st
        = st.map (fun x =>
            if x.inbound_id ∈ D.map (fun d => d.id) then setSynced x else x) := by
  induction D with
  | nil =>
    intro st _
    simp only [List.foldl_nil, List.map_nil]
    have h1 : st.map (fun x =>
          if x.inbound_id ∈ ([] : List Nat) then setSynced x else x)
        = st.map (fun x => x) := by
      apply List.map_congr_left
      intro x _
      exact if_neg (List.not_mem_nil x.inbound_id)
    rw [h1, List.map_id']
  | cons d D ih =>
    intro st hnd
    simp only [List.foldl_cons]
    have hnd' : ((ackDoc st d).map (fun im => im.id)).Nodup := by
      rw [ackDoc_ids st d hnd]
      exact hnd
    rw [ih (ackDoc st d) hnd', ackDoc_char st d hnd, List.map_map]
    apply List.map_congr_left
    intro x _
    show (fun y => if y.inbound_id ∈ D.map (fun dd => dd.id) then setSynced y else y)
        (if x.inbound_id = d.id then setSynced x else x)
      = if x.inbound_id ∈ (d :: D).map (fun dd => dd.id) then setSynced x else x
    simp only [List.map_cons, List.mem_cons]
    by_cases h1 : x.inbound_id = d.id
    · rw [if_pos h1]
      show (if (setSynced x).inbound_id ∈ D.map (fun dd => dd.id)
          then setSynced (setSynced x) else setSynced x)
        = if x.inbound_id = d.id ∨ x.inbound_id ∈ D.map (fun dd => dd.id)
          then setSynced x else x
      rw [if_pos (Or.inl h1)]
      show (if x.inbound_id ∈ D.map (fun dd => dd.id)
          then setSynced (setSynced x) else setSynced x)
        = setSynced x
      by_cases h2 : x.inbound_id ∈ D.map (fun dd => dd.id)
      · rw [if_pos h2, setSynced_setSynced]
      · rw [if_neg h2]
    · rw [if_neg h1]
      show (if x.inbound_id ∈ D.map (fun dd => dd.id) then setSynced x else x)
        = if x.inbound_id = d.id ∨ x.inbound_id ∈ D.map (fun dd => dd.id)
          then setSynced x else x
      by_cases h2 : x.inbound_id ∈ D.map (fun dd => dd.id)
      · rw [if_pos h2, if_pos (Or.inr h2)]
      · rw [if_neg h2, if_neg (by push_neg; exact ⟨h1, h2⟩)]

/-- A document with the owning id of an image occurs in the badge's list. -/
lemma inbound_mem_allDocs (docs : List Doc)
    (hst : ∀ d ∈ docs, d.status = ohneStatus ∨ d.status = mitStatus)
    (v : Nat) (hv : v ∈ docs.map (fun d => d.id)) :
    v ∈ (allDocs docs).map (fun d => d.id) := by
  rcases List.mem_map.mp hv with ⟨d, hd, hdid⟩
  have hdall : d ∈ allDocs docs := by
    unfold allDocs listInboundByStatus
    rw [List.mem_append, (List.mergeSort_perm _ _).mem_iff,
      (List.mergeSort_perm _ _).mem_iff, List.mem_filter, List.mem_filter]
    rcases hst d hd with h | h
    · exact Or.inl ⟨hd, by simp [h]⟩
    · exact Or.inr ⟨hd, by simp [h]⟩
  exact hdid ▸ List.mem_map_of_mem (fun d => d.id) hdall

/-- C9: when document ids are unique, every document carries one of the two
listed statuses, image ids are unique and every image belongs to a stored
document: the badge's pending count equals the number of `synced = false`
images; the acknowledge-all pass exactly maps every image to its
`synced = true` copy — so it neither creates nor deletes records (ids and
length preserved) — and drives the pending count to 0. -/
theorem sync_pending_and_ack (docs : List Doc) (imgs : List Img)
    (hnd : (docs.map (fun d => d.id)).Nodup)
    (hst : ∀ d ∈ docs, d.status = ohneStatus ∨ d.status = mitStatus)
    (hcov : ∀ im ∈ imgs, im.inbound_id ∈ docs.map (fun d => d.id))
    (hind : (imgs.map (fun im => im.id)).Nodup) :
    bumpPending docs imgs = (imgs.filter (fun im => !im.synced)).length
    ∧ ackAll docs imgs = imgs.map setSynced
    ∧ (ackAll docs imgs).map (fun im => im.id) = imgs.map (fun im => im.id)
    ∧ (ackAll docs imgs).length = imgs.length
    ∧ bumpPending docs (ackAll docs imgs) = 0 := by
  have hack : ackAll docs imgs = imgs.map setSynced := by
    unfold ackAll
    rw [ackAll_fold (allDocs docs) imgs hind]
    apply List.map_congr_left
    intro x hx
    exact if_pos (inbound_mem_allDocs docs hst x.inbound_id (hcov x hx))
  refine ⟨bumpPending_eq_unsynced docs imgs hnd hst hcov, hack, ?_, ?_, ?_⟩
  · rw [hack, List.map_map]
    apply List.map_congr_left
    intro x _
    rfl
  · rw [hack, List.length_map]
  · rw [hack]
    have hcov' : ∀ im ∈ imgs.map setSynced, im.inbound_id ∈ docs.map (fun d => d.id) := by
      intro im him
      rcases List.mem_map.mp him with ⟨x, hx, rfl⟩
      exact hcov x hx
    rw [bumpPending_eq_unsynced docs (imgs.map setSynced) hnd hst hcov']
    have hnilf : (imgs.map setSynced).filter (fun im => !im.synced) = [] := by
      apply List.filter_eq_nil_iff.mpr
      intro a ha
      rcases List.mem_map.mp ha with ⟨x, _, rfl⟩
      simp [setSynced]
    rw [hnilf]
    rfl

/-- Documents for the C9 witness: id 1 awaiting drawing, id 2 drawing
attached. -/
def sampleDocs : List Doc :=
  [sampleDoc,
   { id := 2, ls_nr := [66], ls_nr_normalized := [66], supplier := [89],
     date_doc := [50, 48, 50, 52], status := mitStatus,
     created_at := [], created_by := [] }]

/-- Images for the C9 witness: two unsynced pages of document 1, one synced
page of document 2. -/
def sampleImgs : List Img :=
  [{ id := 10, inbound_id := 1, page_no := 1, width_px := 2500, height_px := 1875,
     size_bytes := 5, sha256 := [], synced := false },
   { id := 11, inbound_id := 1, page_no := 2, width_px := 2500, height_px := 1875,
     size_bytes := 5, sha256 := [], synced := false },
   { id := 12, inbound_id := 2, page_no := 1, width_px := 2500, height_px := 1875,
     size_bytes := 5, sha256 := [], synced := true }]

/-- Closed witness for C9 on the concrete two-document, three-image store. -/
theorem sync_pending_and_ack_witness :
    ((sampleDocs.map (fun d => d.id)).Nodup
      ∧ (∀ d ∈ sampleDocs, d.status = ohneStatus ∨ d.status = mitStatus)
      ∧ (∀ im ∈ sampleImgs, im.inbound_id ∈ sampleDocs.map (fun d => d.id))
      ∧ (sampleImgs.map (fun im => im.id)).Nodup) ∧
    (bumpPending sampleDocs sampleImgs
        = (sampleImgs.filter (fun im => !im.synced)).length
      ∧ ackAll sampleDocs sampleImgs = sampleImgs.map setSynced
      ∧ (ackAll sampleDocs sampleImgs).map (fun im => im.id)
          = sampleImgs.map (fun im => im.id)
      ∧ (ackAll sampleDocs sampleImgs).length = sampleImgs.length
      ∧ bumpPending sampleDocs (ackAll sampleDocs sampleImgs) = 0) :=
  ⟨⟨by decide, by decide, by decide, by decide⟩,
    sync_pending_and_ack sampleDocs sampleImgs
      (by decide) (by decide) (by decide) (by decide)⟩

/-! ### Inventory board moves (src/unnamed/part_000 lines 178-197, 869-908) -/

/-- A `dnd_items` record. -/
structure Item where
  id : Nat
  name : Str
  zone : Str
  qty : Nat
  note : Str
deriving DecidableEq

/-- `DB.putItem`: upsert by primary key `id`. -/
def putItem (store : List Item) (it : Item) : List Item :=
  if store.any (fun x => decide (x.id = it.id)) then
    store.map (fun x => if x.id = it.id then it else x)
  else store ++ [it]

/-- `DB.listItemsByZone`: the `by_zone` index. -/
def listItemsByZone (store : List Item) (z : Str) : List Item :=
  store.filter (fun i => decide (i.zone = z))

/-- `UI.addOrMergeItem`: merge into an item of the target zone with the same
name and note, else put a fresh record. -/
def addOrMergeItem (store : List Item) (name zone : Str) (qty : Nat) (note : Str)
    (freshId : Nat) : List Item :=
  match (listItemsByZone store zone).find?
      (fun i => decide (i.name = name ∧ i.note = note)) with
  | some same => putItem store { same with qty := same.qty + qty }
  | none => putItem store { id := freshId, name := name, zone := zone, qty := qty, note := note }

/-- The drop handler of `UI.dndInit` with the move quantity `q` already
clamped to `0 < q ≤ item.qty`: partial move reduces the source and merges
`q` into the target zone, full move reassigns the zone. -/
def dropMove (store : List Item) (it : Item) (targetZone : Str) (q : Nat)
    (freshId : Nat) : List Item :=
  if q < it.qty then
    addOrMergeItem (putItem store { it with qty := it.qty - q })
      it.name targetZone q it.note freshId
  else
    putItem store { it with zone := targetZone }

/-- Total quantity of the items named `nm` with note `nt`, over all zones. -/
def qtySum (store : List Item) (nm nt : Str) : Nat :=
  ((store.filter (fun i => decide (i.name = nm ∧ i.note = nt))).map (fun i => i.qty)).sum

/-- How many items of zone `z` carry name `nm` and note `nt`. -/
def zoneCount (store : List Item) (z nm nt : Str) : Nat :=
  store.countP (fun i => decide (i.zone = z ∧ i.name = nm ∧ i.note = nt))

/-- The contribution of a single item to `qtySum`. -/
def qtyOf (nm nt : Str) (i : Item) : Nat :=
  if i.name = nm ∧ i.note = nt then i.qty else 0

lemma qtySum_cons (a : Item) (l : List Item) (nm nt : Str) :
    qtySum (a :: l) nm nt = qtyOf nm nt a + qtySum l nm nt := by
  unfold qtySum qtyOf
  rw [List.filter_cons]
  by_cases h : a.name = nm ∧ a.note = nt
  · rw [if_pos (by simpa using h), List.map_cons, List.sum_cons, if_pos h]
  · rw [if_neg (by simpa using h), if_neg h]
    omega

lemma qtySum_append (l1 l2 : List Item) (nm nt : Str) :
    qtySum (l1 ++ l2) nm nt = qtySum l1 nm nt + qtySum l2 nm nt := by
  unfold qtySum
  rw [List.filter_append, List.map_append, List.sum_append]

/-- Replacing the stored record with the matching id changes `qtySum` by the
difference of the two records' contributions. -/
lemma qtySum_putItem_replace (nm nt : Str) :
    ∀ (store : List Item) (x y : Item),
      (store.map (fun i => i.id)).Nodup → x ∈ store → y.id = x.id →
      qtySum (putItem store y) nm nt + qtyOf nm nt x
        = qtySum store nm nt + qtyOf nm nt y := by
  intro store
  induction store with
  | nil => intro x y _ hx _; exact absurd hx (List.not_mem_nil x)
  | cons s rest ih =>
    intro x y hnd hx hy
    rw [List.map_cons] at hnd
    obtain ⟨hsid, hndrest⟩ := List.nodup_cons.mp hnd
    by_cases hsy : s.id = y.id
    · have hxs : x = s := by
        rcases List.mem_cons.mp hx with h | h
        · exact h
        · exfalso
          apply hsid
          rw [hsy, hy]
          exact List.mem_map_of_mem (fun i => i.id) h
      have hput : putItem (s :: rest) y = y :: rest := by
        unfold putItem
        rw [if_pos (by rw [List.any_cons]; simp [hsy])]
        rw [List.map_cons, if_pos hsy]
        have hrest : rest.map (fun x => if x.id = y.id then y else x)
            = rest.map (fun x => x) := by
          apply List.map_congr_left
          intro z hz
          apply if_neg
          intro hzid
          apply hsid
          rw [hsy, ← hzid]
          exact List.mem_map_of_mem (fun i => i.id) hz
        rw [hrest, List.map_id']
      rw [hput, qtySum_cons, qtySum_cons, hxs]
      omega
    · have hxrest : x ∈ rest := by
        rcases List.mem_cons.mp hx with h | h
        · exact absurd (h ▸ hy.symm) hsy
        · exact h
      have hanyrest : rest.any (fun z => decide (z.id = y.id)) = true := by
        rw [List.any_eq_true]
        exact ⟨x, hxrest, by simp [hy.symm]⟩
      have hput : putItem (s :: rest) y = s :: putItem rest y := by
        unfold putItem
        rw [if_pos (by rw [List.any_cons]; simp [hanyrest]),
          if_pos hanyrest, List.map_cons, if_neg hsy]
      rw [hput, qtySum_cons, qtySum_cons]
      have := ih x y hndrest hxrest hy
      omega

/-- Replacing a record with one of equal predicate value keeps `countP`. -/
lemma countP_putItem_replace (p : Item → Bool) :
    ∀ (store : List Item) (x y : Item),
      (store.map (fun i => i.id)).Nodup → x ∈ store → y.id = x.id → p y = p x →
      (putItem store y).countP p = store.countP p := by
  intro store
  induction store with
  | nil => intro x y _ hx _ _; exact absurd hx (List.not_mem_nil x)
  | cons s rest ih =>
    intro x y hnd hx hy hp
    rw [List.map_cons] at hnd
    obtain ⟨hsid, hndrest⟩ := List.nodup_cons.mp hnd
    by_cases hsy : s.id = y.id
    · have hxs : x = s := by
        rcases List.mem_cons.mp hx with h | h
        · exact h
        · exfalso
          apply hsid
          rw [hsy, hy]
          exact List.mem_map_of_mem (fun i => i.id) h
      have hput : putItem (s :: rest) y = y :: rest := by
        unfold putItem
        rw [if_pos (by rw [List.any_cons]; simp [hsy])]
        rw [List.map_cons, if_pos hsy]
        have hrest : rest.map (fun x => if x.id = y.id then y else x)
            = rest.map (fun x => x) := by
          apply List.map_congr_left
          intro z hz
          apply if_neg
          intro hzid
          apply hsid
          rw [hsy, ← hzid]
          exact List.mem_map_of_mem (fun i => i.id) hz
        rw [hrest, List.map_id']
      rw [hput, List.countP_cons, List.countP_cons]
      rw [hxs] at hp
      rw [hp]
    · have hxrest : x ∈ rest := by
        rcases List.mem_cons.mp hx with h | h
        · exact absurd (h ▸ hy.symm) hsy
        · exact h
      have hanyrest : rest.any (fun z => decide (z.id = y.id)) = true := by
        rw [List.any_eq_true]
        exact ⟨x, hxrest, by simp [hy.symm]⟩
      have hput : putItem (s :: rest) y = s :: putItem rest y := by
        unfold putItem
        rw [if_pos (by rw [List.any_cons]; simp [hanyrest]),
          if_pos hanyrest, List.map_cons, if_neg hsy]
      rw [hput, List.countP_cons, List.countP_cons, ih x y hndrest hxrest hy hp]

/-- Putting a record whose id is absent appends it. -/
lemma putItem_append_of_fresh (store : List Item) (y : Item)
    (h : y.id ∉ store.map (fun i => i.id)) : putItem store y = store ++ [y] := by
  unfold putItem
  apply if_neg
  intro hany
  rcases List.any_eq_true.mp hany with ⟨z, hz, hzid⟩
  apply h
  rw [← (by simpa using hzid : z.id = y.id)]
  exact List.mem_map_of_mem (fun i => i.id) hz

/-- `putItem` with a stored id preserves the id list. -/
lemma putItem_ids (store : List Item) (x y : Item)
    (hx : x ∈ store) (hy : y.id = x.id) :
    (putItem store y).map (fun i => i.id) = store.map (fun i => i.id) := by
  unfold putItem
  rw [if_pos (by rw [List.any_eq_true]; exact ⟨x, hx, by simp [hy.symm]⟩)]
  rw [List.map_map]
  apply List.map_congr_left
  intro z _
  show (if z.id = y.id then y else z).id = z.id
  by_cases hz : z.id = y.id
  · rw [if_pos hz, hz]
  · rw [if_neg hz]

lemma addOrMergeItem_eq_some {store : List Item} {name zone : Str} {qty : Nat}
    {note : Str} {freshId : Nat} {same : Item}
    (hfind : (listItemsByZone store zone).find?
        (fun i => decide (i.name = name ∧ i.note = note)) = some same) :
    addOrMergeItem store name zone qty note freshId
      = putItem store { same with qty := same.qty + qty } := by
  unfold addOrMergeItem
  rw [hfind]

lemma addOrMergeItem_eq_none {store : List Item} {name zone : Str} {qty : Nat}
    {note : Str} {freshId : Nat}
    (hfind : (listItemsByZone store zone).find?
        (fun i => decide (i.name = name ∧ i.note = note)) = none) :
    addOrMergeItem store name zone qty note freshId
      = putItem store { id := freshId, name := name, zone := zone, qty := qty, note := note } := by
  unfold addOrMergeItem
  rw [hfind]

/-- C10: a board drop — full move, or partial move of `0 < q ≤ item.qty`
(with `q < item.qty` merging into the target zone) — preserves, for every
`(name, note)`, the total quantity over all zones; and the merge never leaves
the target zone with two items of the moved `(name, note)` if it had at most
one before. -/
theorem move_conserves_qty (store : List Item) (it : Item) (tz : Str) (q freshId : Nat)
    (hmem : it ∈ store) (hnd : (store.map (fun i => i.id)).Nodup)
    (hfresh : freshId ∉ store.map (fun i => i.id))
    (hq0 : 0 < q) (hqle : q ≤ it.qty) :
    (∀ nm nt, qtySum (dropMove store it tz q freshId) nm nt = qtySum store nm nt)
    ∧ (q < it.qty → zoneCount store tz it.name it.note ≤ 1 →
        zoneCount (dropMove store it tz q freshId) tz it.name it.note ≤ 1) := by
  have h1ids : (putItem store { it with qty := it.qty - q }).map (fun i => i.id)
      = store.map (fun i => i.id) := putItem_ids store it _ hmem rfl
  have h1nd : ((putItem store { it with qty := it.qty - q }).map (fun i => i.id)).Nodup := by
    rw [h1ids]
    exact hnd
  constructor
  · intro nm nt
    unfold dropMove
    by_cases hlt : q < it.qty
    · rw [if_pos hlt]
      have eq1 := qtySum_putItem_replace nm nt store it { it with qty := it.qty - q }
        hnd hmem rfl
      cases hfind : (listItemsByZone (putItem store { it with qty := it.qty - q }) tz).find?
          (fun i => decide (i.name = it.name ∧ i.note = it.note)) with
      | some same =>
        rw [addOrMergeItem_eq_some hfind]
        have hsame_zone : same ∈ listItemsByZone (putItem store { it with qty := it.qty - q }) tz :=
          List.mem_of_find?_eq_some hfind
        have hsame_mem : same ∈ putItem store { it with qty := it.qty - q } :=
          List.mem_of_mem_filter hsame_zone
        have hpred := List.find?_some hfind
        have hnmnote : same.name = it.name ∧ same.note = it.note := by simpa using hpred
        have eq2 := qtySum_putItem_replace nm nt
          (putItem store { it with qty := it.qty - q }) same
          { same with qty := same.qty + q } h1nd hsame_mem rfl
        by_cases hm : it.name = nm ∧ it.note = nt
        · have hm_same : same.name = nm ∧ same.note = nt :=
            ⟨hnmnote.1.trans hm.1, hnmnote.2.trans hm.2⟩
          have e1 : qtyOf nm nt it = it.qty := if_pos hm
          have e2 : qtyOf nm nt { it with qty := it.qty - q } = it.qty - q := if_pos hm
          have e3 : qtyOf nm nt same = same.qty := if_pos hm_same
          have e4 : qtyOf nm nt { same with qty := same.qty + q } = same.qty + q :=
            if_pos hm_same
          rw [e1, e2] at eq1
          rw [e3, e4] at eq2
          omega
        · have hm_same : ¬(same.name = nm ∧ same.note = nt) := fun hc =>
            hm ⟨hnmnote.1.symm.trans hc.1, hnmnote.2.symm.trans hc.2⟩
          have e1 : qtyOf nm nt it = 0 := if_neg hm
          have e2 : qtyOf nm nt { it with qty := it.qty - q } = 0 := if_neg hm
          have e3 : qtyOf nm nt same = 0 := if_neg hm_same
          have e4 : qtyOf nm nt { same with qty := same.qty + q } = 0 := if_neg hm_same
          rw [e1, e2] at eq1
          rw [e3, e4] at eq2
          omega
      | none =>
        rw [addOrMergeItem_eq_none hfind]
        have hfresh1 : freshId ∉ (putItem store { it with qty := it.qty - q }).map
            (fun i => i.id) := by
          rw [h1ids]
          exact hfresh
        rw [putItem_append_of_fresh _ _ hfresh1, qtySum_append]
        have hsingle : qtySum [({ id := freshId, name := it.name, zone := tz, qty := q, note := it.note } : Item)] nm nt = qtyOf nm nt { id := freshId, name := it.name, zone := tz, qty := q, note := it.note } := by
          rw [qtySum_cons]
          show _ + 0 = _
          omega
        rw [hsingle]
        by_cases hm : it.name = nm ∧ it.note = nt
        · have e1 : qtyOf nm nt it = it.qty := if_pos hm
          have e2 : qtyOf nm nt { it with qty := it.qty - q } = it.qty - q := if_pos hm
          have e5 : qtyOf nm nt { id := freshId, name := it.name, zone := tz, qty := q, note := it.note } = q := if_pos hm
          rw [e1, e2] at eq1
          rw [e5]
          omega
        · have e1 : qtyOf nm nt it = 0 := if_neg hm
          have e2 : qtyOf nm nt { it with qty := it.qty - q } = 0 := if_neg hm
          have e5 : qtyOf nm nt { id := freshId, name := it.name, zone := tz, qty := q, note := it.note } = 0 := if_neg hm
          rw [e1, e2] at eq1
          rw [e5]
          omega
    · rw [if_neg hlt]
      have eq1 := qtySum_putItem_replace nm nt store it { it with zone := tz }
        hnd hmem rfl
      have e1 : qtyOf nm nt { it with zone := tz } = qtyOf nm nt it := rfl
      rw [e1] at eq1
      omega
  · intro hlt hle
    unfold dropMove
    rw [if_pos hlt]
    have z1eq : zoneCount (putItem store { it with qty := it.qty - q }) tz it.name it.note
        = zoneCount store tz it.name it.note :=
      countP_putItem_replace _ store it { it with qty := it.qty - q } hnd hmem rfl rfl
    cases hfind : (listItemsByZone (putItem store { it with qty := it.qty - q }) tz).find?
        (fun i => decide (i.name = it.name ∧ i.note = it.note)) with
    | some same =>
      rw [addOrMergeItem_eq_some hfind]
      have hsame_zone : same ∈ listItemsByZone (putItem store { it with qty := it.qty - q }) tz :=
        List.mem_of_find?_eq_some hfind
      have hsame_mem : same ∈ putItem store { it with qty := it.qty - q } :=
        List.mem_of_mem_filter hsame_zone
      have z2eq : zoneCount (putItem (putItem store { it with qty := it.qty - q })
          { same with qty := same.qty + q }) tz it.name it.note
          = zoneCount (putItem store { it with qty := it.qty - q }) tz it.name it.note :=
        countP_putItem_replace _ _ same { same with qty := same.qty + q }
          h1nd hsame_mem rfl rfl
      rw [z2eq, z1eq]
      exact hle
    | none =>
      rw [addOrMergeItem_eq_none hfind]
      have hfresh1 : freshId ∉ (putItem store { it with qty := it.qty - q }).map
          (fun i => i.id) := by
        rw [h1ids]
        exact hfresh
      rw [putItem_append_of_fresh _ _ hfresh1]
      unfold zoneCount
      rw [List.countP_append]
      have hzero : (putItem store { it with qty := it.qty - q }).countP
          (fun i => decide (i.zone = tz ∧ i.name = it.name ∧ i.note = it.note)) = 0 := by
        apply List.countP_eq_zero.mpr
        intro z hz hg
        have hg' : z.zone = tz ∧ z.name = it.name ∧ z.note = it.note := by simpa using hg
        have hz_zone : z ∈ listItemsByZone (putItem store { it with qty := it.qty - q }) tz := by
          unfold listItemsByZone
          rw [List.mem_filter]
          exact ⟨hz, by simp [hg'.1]⟩
        have := List.find?_eq_none.mp hfind z hz_zone
        apply this
        simp [hg'.2.1, hg'.2.2]
      rw [hzero]
      have hone : List.countP (fun i => decide (i.zone = tz ∧ i.name = it.name ∧ i.note = it.note)) [({ id := freshId, name := it.name, zone := tz, qty := q, note := it.note } : Item)] ≤ 1 := by
        rw [List.countP_cons]
        split <;> simp
      omega

/-- The moved board item of the C10 witness: 10 pieces of part `A` in zone
`Z`. (90 = Z, 65 = A.) -/
def sampleMoveItem : Item :=
  { id := 1, name := [65], zone := [90], qty := 10, note := [] }

/-- Board items for the C10 witness: `sampleMoveItem`, and an unrelated item
in zone `W`. (87 = W, 66 = B.) -/
def sampleItems : List Item :=
  [sampleMoveItem,
   { id := 2, name := [66], zone := [87], qty := 3, note := [] }]

/-- Closed witness for C10: partially moving 4 of the 10 pieces of item 1
into zone `W` conserves every `(name, note)` total and keeps the target zone
free of duplicate `(name, note)` entries. -/
theorem move_conserves_qty_witness :
    (sampleMoveItem ∈ sampleItems
      ∧ (sampleItems.map (fun i => i.id)).Nodup
      ∧ 99 ∉ sampleItems.map (fun i => i.id)
      ∧ 0 < 4 ∧ 4 ≤ sampleMoveItem.qty) ∧
    ((∀ nm nt, qtySum (dropMove sampleItems sampleMoveItem [87] 4 99) nm nt
        = qtySum sampleItems nm nt)
      ∧ (4 < sampleMoveItem.qty →
          zoneCount sampleItems [87] sampleMoveItem.name sampleMoveItem.note ≤ 1 →
          zoneCount (dropMove sampleItems sampleMoveItem [87] 4 99)
            [87] sampleMoveItem.name sampleMoveItem.note ≤ 1)) :=
  ⟨⟨by decide, by decide, by decide, by decide, by decide⟩,
    move_conserves_qty sampleItems sampleMoveItem [87] 4 99
      (by decide) (by decide) (by decide) (by decide) (by decide)⟩

end Lager
